import Mathlib

/-
Verification development for the Genesis single-user chat front end
(src/script.js). The session store, the rolling memory window, the
markdown renderer and the generation client adapter are embedded as
executable Lean functions, translated clause by clause from the source.

Modelling conventions
* JavaScript strings are Lean `String`s (or `List Char` in the markdown
  scanner, where the source works character by character through regexes).
* A field that may be `undefined`/missing or otherwise falsy is modelled
  as the empty string `""`, matching the source's `s?.field || fallback`
  truthiness tests, and a possibly-non-array `messages` field is modelled
  as `Option (List Message)` (`none` = not an array).
* `Ids.uid` and `Ids.nowIso` are impure generators in the source; the
  functions that call them take the generated values (`freshId`, `now`)
  as explicit parameters. Both generators always return non-empty
  strings, which appears as `freshId ≠ ""` / `now ≠ ""` hypotheses.
* JavaScript numbers in the generation settings are modelled as `ℚ`.
-/

namespace Genesis

/-- `v || fallback` for strings: the empty string is the only falsy string. -/
def strOr (v fallback : String) : String := if v = "" then fallback else v

/-- A chat message as stored by the session store: `{ id, role, text, ts }`. -/
structure Message where
  id : String
  role : String
  text : String
  ts : String
deriving DecidableEq, Repr

/-- A (possibly partial or malformed) session record. String fields use `""`
for a missing/falsy value; `messages` is `none` when it is not an array. -/
structure SessRec where
  id : String
  title : String
  createdAt : String
  updatedAt : String
  messages : Option (List Message)
deriving DecidableEq, Repr

/-- An entry of the rolling memory window: only `role` and `text` survive. -/
structure MemEntry where
  role : String
  text : String
deriving DecidableEq, Repr

/-- The persisted store: the session collection plus the active-session id
(`''` when cleared), as read and written through the `Storage` wrapper. -/
structure StoreState where
  sessions : List SessRec
  activeId : String
deriving DecidableEq, Repr

/-- `SessionStore.ensureShape`: normalize a candidate record, substituting the
freshly generated id (`Ids.uid('sess')`) and timestamp (`Ids.nowIso()`) for
missing fields and `[]` for a non-array `messages`. -/
def ensureShape (now freshId : String) (s : SessRec) : SessRec :=
  { id := strOr s.id freshId
    title := strOr s.title "Session"
    createdAt := strOr s.createdAt now
    updatedAt := strOr s.updatedAt now
    messages := some (s.messages.getD []) }

/-- `SessionStore.createNewSession`. -/
def createNewSession (now freshId : String) (title : String) : SessRec :=
  { id := freshId
    title := strOr title "New Session"
    createdAt := now
    updatedAt := now
    messages := some [] }

/-- `SessionStore.upsertSession`: shape the record, then replace the first
entry with a matching id (`findIndex`) or prepend (`unshift`), and persist.
Returns the new store state together with the shaped record. -/
def upsertSession (now freshId : String) (st : StoreState) (session : SessRec) :
    StoreState × SessRec :=
  let all := st.sessions
  let shaped := ensureShape now freshId session
  let idx := all.findIdx (fun s => s.id == shaped.id)
  let all2 := if idx < all.length then all.set idx shaped else shaped :: all
  ({ st with sessions := all2 }, shaped)

/-- `SessionStore.deleteAllSessions`: clear the collection and the pointer. -/
def deleteAllSessions (_st : StoreState) : StoreState :=
  { sessions := [], activeId := "" }

/-- `SessionStore.getById`: find the first entry with the id and re-shape it;
`null` (here `none`) when absent. -/
def getById (now freshId : String) (st : StoreState) (id : String) :
    Option SessRec :=
  (st.sessions.find? (fun s => s.id == id)).map (ensureShape now freshId)

/-- `GenesisApp.ensureAtLeastOneSession`: if the collection is empty, create,
persist and activate one default session; otherwise repoint a missing or
dangling active id at the first element of the *shaped* view of the
collection (the collection itself is not re-saved in that branch). -/
def ensureAtLeastOneSession (now freshId : String) (st : StoreState) :
    StoreState :=
  let all := st.sessions.map (ensureShape now freshId)
  match all with
  | [] =>
      let created := createNewSession now freshId "Operator Session"
      { sessions := [created], activeId := created.id }
  | a :: _ =>
      if st.activeId = "" ∨ ¬ (all.any (fun s => s.id == st.activeId)) then
        { st with activeId := a.id }
      else st

/-- `GenesisApp.getRollingMemory(session, limit = 15)`: the last `limit`
messages (`slice(Math.max(0, len - limit))`), keeping only role and text. -/
def getRollingMemory (session : SessRec) (limit : Nat := 15) : List MemEntry :=
  let msgs := session.messages.getD []
  let slice := msgs.drop (msgs.length - limit)
  slice.map (fun m => { role := m.role, text := m.text })

/-- The memory selection performed by `GenesisApp.runAssistantTurn`:
`const memory = this.getRollingMemory(active, 15)`. -/
def runAssistantTurnMemory (active : SessRec) : List MemEntry :=
  getRollingMemory active 15

/-- `Ids.clamp(n, min, max) = Math.max(min, Math.min(max, n))`. -/
def clamp (n lo hi : ℚ) : ℚ := max lo (min hi n)

/-- The generation settings as handed to the adapter; `none` models an
absent (`undefined`) numeric field, resolved by `?? 0.4` / `?? 512`. -/
structure Settings where
  temperature : Option ℚ
  maxTokens : Option ℚ
deriving DecidableEq, Repr

/-- One entry of the request's `contents` array (a single text part). -/
structure GContent where
  role : String
  text : String
deriving DecidableEq, Repr

/-- `GeminiService.toGeminiContents`: drop entries with falsy text and map
`assistant` to the upstream `model` role, everything else to `user`. -/
def toGeminiContents (messages : List MemEntry) : List GContent :=
  messages.filterMap (fun m =>
    if m.text = "" then none
    else some { role := if m.role = "assistant" then "model" else "user"
                text := m.text })

/-- The request's `generationConfig` object. -/
structure GenerationConfig where
  temperature : ℚ
  maxOutputTokens : ℚ
deriving DecidableEq, Repr

/-- The request payload built by `GeminiService.generate` (the fixed
`systemInstruction` policy text is a constant and is omitted here). -/
structure RequestPayload where
  contents : List GContent
  generationConfig : GenerationConfig
deriving DecidableEq, Repr

/-- Payload construction in `GeminiService.generate`:
`temperature = Ids.clamp(Number(settings.temperature ?? 0.4), 0, 1)` and
`maxOutputTokens = Ids.clamp(Number(settings.maxTokens ?? 512), 1, 2048)`. -/
def buildPayload (settings : Settings) (memoryMessages : List MemEntry) :
    RequestPayload :=
  { contents := toGeminiContents memoryMessages
    generationConfig :=
      { temperature := clamp (settings.temperature.getD (0.4 : ℚ)) 0 1
        maxOutputTokens := clamp (settings.maxTokens.getD 512) 1 2048 } }

/-- The result of `Ids.safeJsonParse(raw, null)` plus the two field lookups
the adapter performs on it: `parsed?.error?.message` (`none` when the path
is absent) and `candidates[0].content.parts` as the list of `p.text` values
(`none` when the path is absent, inner `none` for a part without text). -/
inductive BodyParse where
  | unparseable
  | ok (errorMessage : Option String) (parts : Option (List (Option String)))
deriving DecidableEq, Repr

/-- The outcome of the single `fetch` attempt: a transport failure (the
`catch` branch), or a response with its HTTP status and body. -/
inductive FetchOutcome where
  | networkFailure
  | response (status : Nat) (body : BodyParse)
deriving DecidableEq, Repr

/-- What `GeminiService.generate` produces: a thrown error carrying
`err.status` and `err.message`, or the extracted text with the latency. -/
inductive GenResult where
  | failure (status : Nat) (message : String)
  | success (text : String) (elapsedMs : Nat)
deriving DecidableEq, Repr

/-- Text extraction on a success body:
`parts.map(p => p.text).filter(Boolean).join('') || ''`. -/
def extractText (parts : Option (List (Option String))) : String :=
  String.join ((parts.getD []).filterMap (fun t =>
    match t with
    | some s => if s = "" then none else some s
    | none => none))

/-- `GeminiService.generate`, with the impure pieces (the fetch outcome and
the measured latency) passed in explicitly. `fetch`'s `res.ok` is
`200 ≤ status ≤ 299`. -/
def generate (apiKey : String) (settings : Settings)
    (memoryMessages : List MemEntry) (outcome : FetchOutcome)
    (elapsedMs : Nat) : GenResult :=
  if apiKey = "" then GenResult.failure 401 "Missing API key"
  else
    let _payload := buildPayload settings memoryMessages
    match outcome with
    | FetchOutcome.networkFailure =>
        GenResult.failure 0
          "Network error while contacting Gemini. Check your connection."
    | FetchOutcome.response status body =>
        if ¬ (200 ≤ status ∧ status ≤ 299) then
          let messageFromServer :=
            match body with
            | BodyParse.ok (some m) _ => m
            | _ => ""
          GenResult.failure status
            (if messageFromServer = "" then
              "Gemini request failed (HTTP " ++ toString status ++ ")."
            else messageFromServer)
        else
          match body with
          | BodyParse.unparseable =>
              GenResult.failure 500 "Gemini returned an unreadable response."
          | BodyParse.ok _ parts =>
              GenResult.success (extractText parts) elapsedMs

/-! ## The markdown renderer

The renderer works on JavaScript strings through regexes; it is embedded
here on `List Char`. Each regex of the source is implemented by a scanner
with the exact same matching semantics (leftmost match, lazy/greedy
quantifiers as in the source, advance by one character on failure).
JavaScript's `\s` and `trimEnd` whitespace classes are modelled by
`Char.isWhitespace`. -/

/-- One step of `Markdown.escapeHtml`'s replacement chain. Because no
replacement output contains a character targeted by a later `replaceAll`,
the source's chain of five `replaceAll`s equals this per-character map. -/
def escChar (c : Char) : List Char :=
  if c = '&' then "&amp;".toList
  else if c = '<' then "&lt;".toList
  else if c = '>' then "&gt;".toList
  else if c = '"' then "&quot;".toList
  else if c = '\'' then "&#39;".toList
  else [c]

/-- `Markdown.escapeHtml` on character lists. -/
def escapeHtmlL (cs : List Char) : List Char := (cs.map escChar).join

/-- `Markdown.escapeHtml`. -/
def escapeHtml (text : String) : String := String.mk (escapeHtmlL text.toList)

/-- Scanner for the lazy `(.+?)\*\*` tail of `/\*\*(.+?)\*\*/`: `acc` holds
the (reversed) content matched so far, which is non-empty; the closing
`**` is taken at the earliest position, and `.` matches no line
terminator (`\n`, `\r`; the rare U+2028/U+2029 are out of scope). -/
def boldCloseGo (acc : List Char) : List Char → Option (List Char × List Char)
  | [] => none
  | c :: rest =>
      if c = '*' ∧ rest.head? = some '*' then some (acc.reverse, rest.tail)
      else if c = '\n' ∨ c = '\r' then none
      else boldCloseGo (c :: acc) rest

/-- Match `(.+?)\*\*` against `cs` (the text after an opening `**`),
returning the content and the remainder after the closing `**`. -/
def boldClose : List Char → Option (List Char × List Char)
  | [] => none
  | c :: rest => if c = '\n' ∨ c = '\r' then none else boldCloseGo [c] rest

/-- `boldCloseGo` consumes at least the closing `**`. -/
theorem boldCloseGo_length (acc cs : List Char) :
    ∀ content rest', boldCloseGo acc cs = some (content, rest') →
      rest'.length + 2 ≤ cs.length := by
  induction cs generalizing acc with
  | nil => intro content rest' h; simp [boldCloseGo] at h
  | cons c rest ih =>
      intro content rest' h
      rw [boldCloseGo] at h
      by_cases h1 : c = '*' ∧ rest.head? = some '*'
      · rw [if_pos h1] at h
        simp only [Option.some.injEq, Prod.mk.injEq] at h
        obtain ⟨-, hr⟩ := h
        subst hr
        obtain ⟨-, hhead⟩ := h1
        have hne : rest ≠ [] := by
          intro hnil
          rw [hnil] at hhead
          simp at hhead
        have htail : rest.tail.length + 1 = rest.length := by
          cases rest with
          | nil => exact absurd rfl hne
          | cons a t => simp
        simp only [List.length_cons]
        omega
      · rw [if_neg h1] at h
        by_cases h2 : c = '\n' ∨ c = '\r'
        · rw [if_pos h2] at h
          exact absurd h (by simp)
        · rw [if_neg h2] at h
          have := ih (c :: acc) content rest' h
          simp only [List.length_cons]
          omega

/-- `boldClose` consumes at least one content character and the closer. -/
theorem boldClose_length (cs content rest' : List Char)
    (h : boldClose cs = some (content, rest')) :
    rest'.length + 3 ≤ cs.length := by
  match cs with
  | [] => simp [boldClose] at h
  | c :: rest =>
      rw [boldClose] at h
      split_ifs at h
      have := boldCloseGo_length [c] rest content rest' h
      simp
      omega

/-- The global replace
`safe.replace(/\*\*(.+?)\*\*/g, '<strong>$1</strong>')`: scan left to
right; at an opening `**` with a lazily-matched closer, emit the strong
element and continue after the match; otherwise advance one character. -/
def boldRepl : List Char → List Char
  | '*' :: '*' :: rest =>
      (if h : (boldClose rest).isSome then
        "<strong>".toList ++ ((boldClose rest).get h).1 ++ "</strong>".toList
          ++ boldRepl ((boldClose rest).get h).2
      else '*' :: boldRepl ('*' :: rest))
  | c :: rest => c :: boldRepl rest
  | [] => []
termination_by cs => cs.length
decreasing_by
  · have hsome : boldClose rest
        = some (((boldClose rest).get h).1, ((boldClose rest).get h).2) := by
      simpa using (Option.some_get h).symm
    have := boldClose_length rest _ _ hsome
    simp
    omega
  · simp
  · simp

/-- The global replace
`safe.replace(/`([^`]+?)`/g, (m, g1) => ...)`: a backtick span with a
non-empty backtick-free content becomes a code element whose content is
escaped again by the callback; otherwise advance one character. -/
def codeRepl : List Char → List Char
  | '`' :: rest =>
      (if h : rest.takeWhile (fun c => c != '`') ≠ []
          ∧ rest.dropWhile (fun c => c != '`') ≠ [] then
        "<code>".toList
          ++ escapeHtmlL (rest.takeWhile (fun c => c != '`'))
          ++ "</code>".toList
          ++ codeRepl (rest.dropWhile (fun c => c != '`')).tail
      else '`' :: codeRepl rest)
  | c :: rest => c :: codeRepl rest
  | [] => []
termination_by cs => cs.length
decreasing_by
  · have hsuf : rest.dropWhile (fun c => c != '`') <:+ rest :=
      List.dropWhile_suffix _
    have hle := hsuf.length_le
    have htl : (rest.dropWhile (fun c => c != '`')).tail.length + 1
        = (rest.dropWhile (fun c => c != '`')).length := by
      cases hd : rest.dropWhile (fun c => c != '`') with
      | nil => exact absurd hd h.2
      | cons a t => simp
    simp
    omega
  · simp
  · simp

/-- Match `(https?:\/\/[^\s)]+)\)` against `cs` (the text after `](`):
the scheme prefix, then a greedy non-empty run of characters that are
neither whitespace nor `)`, then the literal `)`. Returns the captured
URL and the remainder after `)`. -/
def urlMatch (cs : List Char) : Option (List Char × List Char) :=
  let schemeLen :=
    if cs.take 7 = "http://".toList then some 7
    else if cs.take 8 = "https://".toList then some 8
    else none
  match schemeLen with
  | none => none
  | some n =>
      let afterScheme := cs.drop n
      let run := afterScheme.takeWhile (fun c => !c.isWhitespace && c != ')')
      if run = [] then none
      else
        match afterScheme.drop run.length with
        | ')' :: rest' => some (cs.take n ++ run, rest')
        | _ => none

/-- `urlMatch` only shortens its input. -/
theorem urlMatch_length (cs : List Char) (url rest' : List Char)
    (h : urlMatch cs = some (url, rest')) : rest'.length ≤ cs.length := by
  simp only [urlMatch] at h
  split at h
  · exact absurd h (by simp)
  · split_ifs at h with hrun
    split at h
    · rename_i r0 hdrop
      simp only [Option.some.injEq, Prod.mk.injEq] at h
      obtain ⟨-, hr⟩ := h
      subst hr
      have hsuf : (')' :: r0) <:+ cs := by
        rw [← hdrop]
        exact (List.drop_suffix _ _).trans (List.drop_suffix _ _)
      have := hsuf.length_le
      simp at this
      omega
    · exact absurd h (by simp)

/-- Scanner for the lazy `(.+?)\]\(...` tail of the link regex: `acc`
holds the (reversed) label so far; at each `](` with a non-empty label,
try the URL tail; on failure the lazy label grows past the `]`. -/
def linkCloseGo (acc : List Char) :
    List Char → Option (List Char × List Char × List Char)
  | [] => none
  | c :: rest =>
      if c = '\n' ∨ c = '\r' then none
      else if c = ']' ∧ rest.head? = some '(' ∧ acc ≠ [] then
        match urlMatch rest.tail with
        | some (url, rest') => some (acc.reverse, url, rest')
        | none => linkCloseGo (c :: acc) rest
      else linkCloseGo (c :: acc) rest

/-- `linkCloseGo` never lengthens the remainder. -/
theorem linkCloseGo_length (acc cs : List Char) :
    ∀ label url rest', linkCloseGo acc cs = some (label, url, rest') →
      rest'.length ≤ cs.length := by
  induction cs generalizing acc with
  | nil => intro label url rest' h; simp [linkCloseGo] at h
  | cons c rest ih =>
      intro label url rest' h
      rw [linkCloseGo] at h
      by_cases h1 : c = '\n' ∨ c = '\r'
      · rw [if_pos h1] at h
        exact absurd h (by simp)
      · rw [if_neg h1] at h
        by_cases h2 : c = ']' ∧ rest.head? = some '(' ∧ acc ≠ []
        · rw [if_pos h2] at h
          match hm : urlMatch rest.tail with
          | some (u, r) =>
              rw [hm] at h
              simp only [Option.some.injEq, Prod.mk.injEq] at h
              obtain ⟨-, -, hr⟩ := h
              subst hr
              have h5 := urlMatch_length rest.tail u r hm
              have h7 : rest.tail.length ≤ rest.length := by
                cases rest <;> simp
              simp only [List.length_cons]
              omega
          | none =>
              rw [hm] at h
              have := ih (c :: acc) label url rest' h
              simp only [List.length_cons]
              omega
        · rw [if_neg h2] at h
          have := ih (c :: acc) label url rest' h
          simp only [List.length_cons]
          omega

/-- The global replace of
`/\[(.+?)\]\((https?:\/\/[^\s)]+)\)/g` with
`'<a href="$2" target="_blank" rel="noopener noreferrer">$1</a>'`. -/
def linkRepl : List Char → List Char
  | '[' :: rest =>
      (if h : (linkCloseGo [] rest).isSome then
        "<a href=\"".toList ++ ((linkCloseGo [] rest).get h).2.1
          ++ "\" target=\"_blank\" rel=\"noopener noreferrer\">".toList
          ++ ((linkCloseGo [] rest).get h).1 ++ "</a>".toList
          ++ linkRepl ((linkCloseGo [] rest).get h).2.2
      else '[' :: linkRepl rest)
  | c :: rest => c :: linkRepl rest
  | [] => []
termination_by cs => cs.length
decreasing_by
  · have hsome : linkCloseGo [] rest
        = some (((linkCloseGo [] rest).get h).1,
            ((linkCloseGo [] rest).get h).2.1,
            ((linkCloseGo [] rest).get h).2.2) := by
      simpa using (Option.some_get h).symm
    have := linkCloseGo_length [] rest _ _ _ hsome
    simp
    omega
  · simp
  · simp

/-- `Markdown.formatInline` on character lists: escape, then bold, then
inline code, then links, in the source's order. -/
def formatInlineL (cs : List Char) : List Char :=
  linkRepl (codeRepl (boldRepl (escapeHtmlL cs)))

/-- `Markdown.formatInline`. -/
def formatInline (text : String) : String :=
  String.mk (formatInlineL text.toList)

/-! ## The prose block scanner (`Markdown.formatInlineAndBlocks`) -/

/-- `line.trimEnd()`. -/
def trimEndL (cs : List Char) : List Char :=
  (cs.reverse.dropWhile (fun c => c.isWhitespace)).reverse

/-- `line.trim()`. -/
def trimL (cs : List Char) : List Char :=
  ((cs.dropWhile (fun c => c.isWhitespace)).reverse.dropWhile
    (fun c => c.isWhitespace)).reverse

/-- `raw.split(/\r?\n/)` (with the accumulator reversed). -/
def splitLinesGo (acc : List Char) : List Char → List (List Char)
  | [] => [acc.reverse]
  | '\r' :: '\n' :: rest => acc.reverse :: splitLinesGo [] rest
  | '\n' :: rest => acc.reverse :: splitLinesGo [] rest
  | c :: rest => splitLinesGo (c :: acc) rest

/-- `raw.split(/\r?\n/)`. -/
def splitLinesL (cs : List Char) : List (List Char) := splitLinesGo [] cs

/-- `trimmed.match(/^\s*[-*]\s+(.+)$/)`, returning the content capture.
(`.` matches neither `\n` nor `\r`; on the end-trimmed lines the scanner
feeds in, the content is the remainder of the line after the bullet and
its whitespace.) -/
def ulMatchL (cs : List Char) : Option (List Char) :=
  match cs.dropWhile (fun c => c.isWhitespace) with
  | b :: rest =>
      if b = '-' ∨ b = '*' then
        match rest with
        | c :: _ =>
            if c.isWhitespace then
              let content := rest.dropWhile (fun ch => ch.isWhitespace)
              if content = [] then none
              else if content.all (fun ch => ch != '\n' && ch != '\r') then
                some content
              else none
            else none
        | [] => none
      else none
  | [] => none

/-- `trimmed.match(/^\s*(\d+)\.\s+(.+)$/)`, returning the second capture
(the content; the digits capture is unused by the scanner). -/
def olMatchL (cs : List Char) : Option (List Char) :=
  let afterWs := cs.dropWhile (fun c => c.isWhitespace)
  if afterWs.takeWhile (fun c => c.isDigit) = [] then none
  else
    match afterWs.dropWhile (fun c => c.isDigit) with
    | '.' :: rest =>
        (match rest with
        | c :: _ =>
            if c.isWhitespace then
              let content := rest.dropWhile (fun ch => ch.isWhitespace)
              if content = [] then none
              else if content.all (fun ch => ch != '\n' && ch != '\r') then
                some content
              else none
            else none
        | [] => none)
    | _ => none

/-- The two list modes of the scanner (`listMode` strings `'ul'`/`'ol'`). -/
inductive LMode where
  | ul
  | ol
deriving DecidableEq, Repr

/-- One emitted block: each `html += ...` of the scanner appends exactly
one of these (a finished list element or a paragraph). -/
inductive Block where
  | ul (items : List (List Char))
  | ol (items : List (List Char))
  | para (text : List Char)
deriving DecidableEq, Repr

/-- The scanner state: emitted blocks, `listMode` and `listBuf`. -/
structure ScanState where
  out : List Block
  mode : Option LMode
  buf : List (List Char)
deriving DecidableEq, Repr

/-- `flushList()`: emit the open buffer as one finished list element;
a missing mode or an empty buffer is a no-op. -/
def flushScan (st : ScanState) : ScanState :=
  match st.mode with
  | none => st
  | some m =>
      if st.buf = [] then st
      else
        { out := st.out ++
            [match m with
             | LMode.ul => Block.ul st.buf
             | LMode.ol => Block.ol st.buf]
          mode := none
          buf := [] }

/-- How one line is treated by the scan: the source computes `ulMatch`
and `olMatch` on `line.trimEnd()` and tests them in that order, then the
blank test `!trimmed.trim()`, else a paragraph of `trimmed.trim()`. -/
inductive LineKind where
  | ulItem (content : List Char)
  | olItem (content : List Char)
  | blank
  | text (content : List Char)
deriving DecidableEq, Repr

/-- Classify one raw line exactly as the loop body does. -/
def classifyLine (line : List Char) : LineKind :=
  let trimmed := trimEndL line
  match ulMatchL trimmed with
  | some c => LineKind.ulItem c
  | none =>
      match olMatchL trimmed with
      | some c => LineKind.olItem c
      | none =>
          if trimL trimmed = [] then LineKind.blank
          else LineKind.text (trimL trimmed)

/-- One iteration of `for (const line of lines)`. -/
def scanStep (st : ScanState) (line : List Char) : ScanState :=
  match classifyLine line with
  | LineKind.ulItem c =>
      let st1 := if st.mode = some LMode.ol then flushScan st else st
      { st1 with mode := some LMode.ul, buf := st1.buf ++ [c] }
  | LineKind.olItem c =>
      let st1 := if st.mode = some LMode.ul then flushScan st else st
      { st1 with mode := some LMode.ol, buf := st1.buf ++ [c] }
  | LineKind.blank => flushScan st
  | LineKind.text t =>
      let st1 := flushScan st
      { st1 with out := st1.out ++ [Block.para t] }

/-- The whole scan of one prose segment: fold the lines through the loop
body, then the final `flushList()`. -/
def scanLines (lines : List (List Char)) : List Block :=
  (flushScan (lines.foldl scanStep { out := [], mode := none, buf := [] })).out

/-- Render one emitted block to markup, as the corresponding `html +=`
does (list items and paragraph text go through `formatInline`). -/
def blockHtml : Block → List Char
  | Block.ul items =>
      "<ul>".toList
        ++ (items.map (fun li =>
              "<li>".toList ++ formatInlineL li ++ "</li>".toList)).join
        ++ "</ul>".toList
  | Block.ol items =>
      "<ol>".toList
        ++ (items.map (fun li =>
              "<li>".toList ++ formatInlineL li ++ "</li>".toList)).join
        ++ "</ol>".toList
  | Block.para t => "<p>".toList ++ formatInlineL t ++ "</p>".toList

/-- `Markdown.formatInlineAndBlocks`: split into lines, scan, render. -/
def formatInlineAndBlocks (text : String) : String :=
  String.mk ((scanLines (splitLinesL text.toList)).map blockHtml).join

/-- Whether the four characters `http` occur consecutively anywhere in the
text: a necessary condition for the link regex's URL alternative
`https?:\/\/` to match. Used to state that text without such an
occurrence passes through the link replacement unchanged. -/
def containsHttp : List Char → Bool
  | [] => false
  | c :: rest =>
      (decide (c = 'h' ∧ rest.take 3 = "ttp".toList)) || containsHttp rest

/-! ## Helper lemmas about the store and memory window -/

/-- `getRollingMemory` is the last `limit` messages, in order, projected to
role and text. -/
theorem getRollingMemory_eq_lastN (session : SessRec) (limit : Nat) :
    getRollingMemory session limit
      = (((session.messages.getD []).reverse.take limit).reverse).map
          (fun m => ({ role := m.role, text := m.text } : MemEntry)) := by
  simp [getRollingMemory, List.take_reverse]

/-- `getRollingMemory` returns `min limit |messages|` entries. -/
theorem getRollingMemory_length (session : SessRec) (limit : Nat) :
    (getRollingMemory session limit).length
      = min limit (session.messages.getD []).length := by
  simp [getRollingMemory]
  omega

/-- Normalization keeps a non-empty id. -/
theorem ensureShape_id_of_ne (now freshId : String) (r : SessRec)
    (h : r.id ≠ "") : (ensureShape now freshId r).id = r.id := by
  simp [ensureShape, strOr, h]

/-- Normalization is idempotent, provided the generated id and timestamp of
the first pass are non-empty (as `Ids.uid` and `Ids.nowIso` always are). -/
theorem ensureShape_idem (now1 freshId1 now2 freshId2 : String) (x : SessRec)
    (hnow : now1 ≠ "") (hfresh : freshId1 ≠ "") :
    ensureShape now2 freshId2 (ensureShape now1 freshId1 x)
      = ensureShape now1 freshId1 x := by
  simp only [ensureShape, strOr]
  split_ifs with h1 h2 h3 h4 h5 h6 h7 h8 h9 h10 h11 <;>
    simp_all

/-- Where the first match sits, `List.set` at `findIdx` replaces it. -/
theorem set_findIdx_decomp (sh : SessRec) (l : List SessRec)
    (h : ∃ r ∈ l, r.id = sh.id) :
    ∃ pre old suf, l = pre ++ old :: suf ∧ (∀ r ∈ pre, r.id ≠ sh.id) ∧
      old.id = sh.id ∧
      l.set (l.findIdx (fun r => r.id == sh.id)) sh = pre ++ sh :: suf := by
  induction l with
  | nil => simp at h
  | cons a t ih =>
      by_cases ha : a.id = sh.id
      · exact ⟨[], a, t, by simp, by simp, ha, by simp [List.findIdx_cons, ha]⟩
      · have h' : ∃ r ∈ t, r.id = sh.id := by
          rcases h with ⟨r, hr, hid⟩
          rcases List.mem_cons.mp hr with rfl | hrt
          · exact absurd hid ha
          · exact ⟨r, hrt, hid⟩
        obtain ⟨pre, old, suf, h1, h2, h3, h4⟩ := ih h'
        refine ⟨a :: pre, old, suf, by simp [h1], ?_, h3, ?_⟩
        · intro r hr
          rcases List.mem_cons.mp hr with rfl | hrp
          · exact ha
          · exact h2 r hrp
        · have hbeq : (a.id == sh.id) = false := by
            simpa using ha
          simp [List.findIdx_cons, hbeq, h4]

/-- `find?` lands on the entry after a prefix with no match. -/
theorem find?_after_prefix (p : SessRec → Bool) (pre suf : List SessRec)
    (sh : SessRec) (hpre : ∀ r ∈ pre, p r = false) (hsh : p sh = true) :
    (pre ++ sh :: suf).find? p = some sh := by
  induction pre with
  | nil => simp [List.find?_cons, hsh]
  | cons a t ih =>
      simp only [List.cons_append, List.find?_cons, hpre a (by simp)]
      exact ih (fun r hr => hpre r (by simp [hr]))

/-! ## C1: the rolling memory window -/

/-- C1. For every session and limit, `getRollingMemory` returns exactly
`min limit |messages|` entries, namely the last `limit` messages in their
original order, each reduced to role and text only (the `MemEntry` type has
no id and no timestamp field). -/
theorem c1_rolling_memory_window (session : SessRec) (limit : Nat) :
    (getRollingMemory session limit).length
      = min limit (session.messages.getD []).length ∧
    getRollingMemory session limit
      = (((session.messages.getD []).reverse.take limit).reverse).map
          (fun m => ({ role := m.role, text := m.text } : MemEntry)) :=
  ⟨getRollingMemory_length session limit, getRollingMemory_eq_lastN session limit⟩

/-! ## C10: the default window size is 15 -/

/-- C10. The default window limit is 15 messages: `runAssistantTurn` selects
memory with limit 15, which coincides with `getRollingMemory`'s default, and
never forwards more than the last 15 messages. -/
theorem c10_default_window_15 (session : SessRec) :
    runAssistantTurnMemory session = getRollingMemory session ∧
    runAssistantTurnMemory session = getRollingMemory session 15 ∧
    (runAssistantTurnMemory session).length ≤ 15 ∧
    runAssistantTurnMemory session
      = (((session.messages.getD []).reverse.take 15).reverse).map
          (fun m => ({ role := m.role, text := m.text } : MemEntry)) := by
  refine ⟨rfl, rfl, ?_, getRollingMemory_eq_lastN session 15⟩
  have h := getRollingMemory_length session 15
  simp only [runAssistantTurnMemory, h]
  omega

/-! ## C4: idempotence of `ensureShape` -/

/-- C4. `ensureShape` is idempotent on every candidate record, partial or
malformed: a second application (with whatever fresh id/timestamp that call
would generate) returns the first result unchanged. The hypotheses record
that the first call's generated id and timestamp are non-empty strings,
which `Ids.uid` and `Ids.nowIso` guarantee. -/
theorem c4_ensureShape_idempotent (now1 freshId1 now2 freshId2 : String)
    (x : SessRec) (hnow : now1 ≠ "") (hfresh : freshId1 ≠ "") :
    ensureShape now2 freshId2 (ensureShape now1 freshId1 x)
      = ensureShape now1 freshId1 x :=
  ensureShape_idem now1 freshId1 now2 freshId2 x hnow hfresh

/-- Witness for C4 at a fully-missing record. -/
theorem c4_witness :
    ensureShape "2024-01-01T00:00:00.000Z" "sess_2" (ensureShape
        "2024-01-01T00:00:00.000Z" "sess_1"
        { id := "", title := "", createdAt := "", updatedAt := "",
          messages := none })
      = ensureShape "2024-01-01T00:00:00.000Z" "sess_1"
        { id := "", title := "", createdAt := "", updatedAt := "",
          messages := none } :=
  c4_ensureShape_idempotent "2024-01-01T00:00:00.000Z" "sess_1"
    "2024-01-01T00:00:00.000Z" "sess_2" _ (by decide) (by decide)

/-! ## C2: store self-healing -/

/-- C2 counterexample. A stored session whose `id` field is falsy is shaped
to a fresh id only in `ensureAtLeastOneSession`'s transient view; the
routine then points the active id at that fresh id without re-saving the
collection, so after it runs the pointer is non-empty yet matches no stored
session: the claimed "never dangling after this routine runs" invariant
fails. -/
theorem c2_counterexample :
    (ensureAtLeastOneSession "2024-01-01T00:00:00.000Z" "sess_f1"
        { sessions := [{ id := "", title := "t", createdAt := "c",
                         updatedAt := "u", messages := some [] }],
          activeId := "" }).sessions ≠ [] ∧
    (ensureAtLeastOneSession "2024-01-01T00:00:00.000Z" "sess_f1"
        { sessions := [{ id := "", title := "t", createdAt := "c",
                         updatedAt := "u", messages := some [] }],
          activeId := "" }).activeId ≠ "" ∧
    ∀ r ∈ (ensureAtLeastOneSession "2024-01-01T00:00:00.000Z" "sess_f1"
        { sessions := [{ id := "", title := "t", createdAt := "c",
                         updatedAt := "u", messages := some [] }],
          activeId := "" }).sessions,
      r.id ≠ (ensureAtLeastOneSession "2024-01-01T00:00:00.000Z" "sess_f1"
        { sessions := [{ id := "", title := "t", createdAt := "c",
                         updatedAt := "u", messages := some [] }],
          activeId := "" }).activeId := by
  decide

/-- C2 (amended). `deleteAllSessions` followed by `ensureAtLeastOneSession`
always leaves exactly one session with the active pointer referencing it;
and after `ensureAtLeastOneSession` runs on a store whose sessions all have
non-empty ids (so normalization preserves every id), the collection is
non-empty and the active pointer is non-empty and references a stored
session. (`hfresh` records that `Ids.uid` output is non-empty.) -/
theorem c2_self_heal (st : StoreState) (now freshId : String)
    (hfresh : freshId ≠ "") :
    ((ensureAtLeastOneSession now freshId
        (deleteAllSessions st)).sessions.length = 1 ∧
     (ensureAtLeastOneSession now freshId (deleteAllSessions st)).activeId
        ≠ "" ∧
     (ensureAtLeastOneSession now freshId
        (deleteAllSessions st)).sessions.map (fun s => s.id)
        = [(ensureAtLeastOneSession now freshId
            (deleteAllSessions st)).activeId]) ∧
    ((∀ r ∈ st.sessions, r.id ≠ "") →
      (ensureAtLeastOneSession now freshId st).sessions ≠ [] ∧
      (ensureAtLeastOneSession now freshId st).activeId ≠ "" ∧
      ∃ r ∈ (ensureAtLeastOneSession now freshId st).sessions,
        r.id = (ensureAtLeastOneSession now freshId st).activeId) := by
  constructor
  · simp [ensureAtLeastOneSession, deleteAllSessions, createNewSession,
      strOr, hfresh]
  · intro hids
    match hsess : st.sessions with
    | [] =>
        simp [ensureAtLeastOneSession, hsess, createNewSession, strOr, hfresh]
    | s0 :: rest =>
        have hid0 : (ensureShape now freshId s0).id = s0.id :=
          ensureShape_id_of_ne now freshId s0 (hids s0 (by simp [hsess]))
        simp only [ensureAtLeastOneSession, hsess, List.map_cons]
        split
        · -- repoint at the first shaped element
          refine ⟨by simp, ?_, ?_⟩
          · simp [hid0]
            exact hids s0 (by simp [hsess])
          · exact ⟨s0, by simp, by simp [hid0]⟩
        · -- keep the current pointer
          rename_i hcond
          rw [not_or, not_not] at hcond
          obtain ⟨hne, hany⟩ := hcond
          rw [List.any_eq_true] at hany
          obtain ⟨r, hr, hrid⟩ := hany
          rw [beq_iff_eq] at hrid
          refine ⟨by simp [hsess], hne, ?_⟩
          rcases List.mem_cons.mp hr with rfl | hrr
          · exact ⟨s0, by simp [hsess], by rw [← hid0, hrid]⟩
          · obtain ⟨r0, hr0, rfl⟩ := List.mem_map.mp hrr
            refine ⟨r0, by simp [hsess, hr0], ?_⟩
            rw [← ensureShape_id_of_ne now freshId r0
              (hids r0 (by simp [hsess, hr0])), hrid]

/-- Witness for C2 (amended) at a one-session store. -/
theorem c2_witness :
    ((ensureAtLeastOneSession "2024-01-01T00:00:00.000Z" "sess_f1"
        (deleteAllSessions
          { sessions := [{ id := "a", title := "t", createdAt := "c",
                           updatedAt := "u", messages := some [] }],
            activeId := "a" })).sessions.length = 1 ∧
     (ensureAtLeastOneSession "2024-01-01T00:00:00.000Z" "sess_f1"
        (deleteAllSessions
          { sessions := [{ id := "a", title := "t", createdAt := "c",
                           updatedAt := "u", messages := some [] }],
            activeId := "a" })).activeId ≠ "" ∧
     (ensureAtLeastOneSession "2024-01-01T00:00:00.000Z" "sess_f1"
        (deleteAllSessions
          { sessions := [{ id := "a", title := "t", createdAt := "c",
                           updatedAt := "u", messages := some [] }],
            activeId := "a" })).sessions.map (fun s => s.id)
        = [(ensureAtLeastOneSession "2024-01-01T00:00:00.000Z" "sess_f1"
            (deleteAllSessions
              { sessions := [{ id := "a", title := "t", createdAt := "c",
                               updatedAt := "u", messages := some [] }],
                activeId := "a" })).activeId]) ∧
    ((∀ r ∈ ({ sessions := [{ id := "a", title := "t", createdAt := "c",
                              updatedAt := "u", messages := some [] }],
               activeId := "a" } : StoreState).sessions, r.id ≠ "") →
      (ensureAtLeastOneSession "2024-01-01T00:00:00.000Z" "sess_f1"
        { sessions := [{ id := "a", title := "t", createdAt := "c",
                         updatedAt := "u", messages := some [] }],
          activeId := "a" }).sessions ≠ [] ∧
      (ensureAtLeastOneSession "2024-01-01T00:00:00.000Z" "sess_f1"
        { sessions := [{ id := "a", title := "t", createdAt := "c",
                         updatedAt := "u", messages := some [] }],
          activeId := "a" }).activeId ≠ "" ∧
      ∃ r ∈ (ensureAtLeastOneSession "2024-01-01T00:00:00.000Z" "sess_f1"
        { sessions := [{ id := "a", title := "t", createdAt := "c",
                         updatedAt := "u", messages := some [] }],
          activeId := "a" }).sessions,
        r.id = (ensureAtLeastOneSession "2024-01-01T00:00:00.000Z" "sess_f1"
          { sessions := [{ id := "a", title := "t", createdAt := "c",
                           updatedAt := "u", messages := some [] }],
            activeId := "a" }).activeId) :=
  c2_self_heal
    { sessions := [{ id := "a", title := "t", createdAt := "c",
                     updatedAt := "u", messages := some [] }],
      activeId := "a" }
    "2024-01-01T00:00:00.000Z" "sess_f1" (by decide)

/-! ## C3: upsert then lookup -/

/-- C3 counterexample. For a record with a falsy (empty/missing) id the
shaped entry is stored under a freshly generated id, so `getById(s.id)`
after `upsertSession(s)` finds nothing: the round trip claimed for *every*
record fails. -/
theorem c3_counterexample :
    getById "2024-01-02T00:00:00.000Z" "sess_2"
        (upsertSession "2024-01-01T00:00:00.000Z" "sess_1"
          { sessions := [], activeId := "" }
          { id := "", title := "t", createdAt := "", updatedAt := "",
            messages := none }).fst
        ({ id := "", title := "t", createdAt := "", updatedAt := "",
           messages := none } : SessRec).id
      = none ∧
    (none : Option SessRec)
      ≠ some (ensureShape "2024-01-01T00:00:00.000Z" "sess_1"
          { id := "", title := "t", createdAt := "", updatedAt := "",
            messages := none }) := by
  decide

/-- C3 (amended). `upsertSession` shapes the record via `ensureShape`, then
replaces the first entry whose id matches, in place, or prepends when no
entry matches; and for every record whose own id is non-empty (so that
shaping preserves it), `getById(s.id)` after `upsertSession(s)` returns
exactly `ensureShape(s)`. For a record without an id the entry is stored
under the freshly generated id instead. -/
theorem c3_upsert_then_getById (now1 freshId1 now2 freshId2 : String)
    (st : StoreState) (s : SessRec) (hnow : now1 ≠ "")
    (hfresh : freshId1 ≠ "") :
    ((∀ r ∈ st.sessions, r.id ≠ (ensureShape now1 freshId1 s).id) →
      (upsertSession now1 freshId1 st s).fst.sessions
        = ensureShape now1 freshId1 s :: st.sessions) ∧
    ((∃ r ∈ st.sessions, r.id = (ensureShape now1 freshId1 s).id) →
      ∃ pre old suf, st.sessions = pre ++ old :: suf ∧
        (∀ r ∈ pre, r.id ≠ (ensureShape now1 freshId1 s).id) ∧
        old.id = (ensureShape now1 freshId1 s).id ∧
        (upsertSession now1 freshId1 st s).fst.sessions
          = pre ++ ensureShape now1 freshId1 s :: suf) ∧
    (s.id ≠ "" →
      getById now2 freshId2 (upsertSession now1 freshId1 st s).fst s.id
        = some (ensureShape now1 freshId1 s)) := by
  refine ⟨?_, ?_, ?_⟩
  · intro hnone
    have hlt : ¬ List.findIdx
        (fun r => r.id == (ensureShape now1 freshId1 s).id) st.sessions
        < st.sessions.length := by
      rw [List.findIdx_lt_length]
      push_neg
      intro r hr
      simpa using hnone r hr
    simp [upsertSession, hlt]
  · intro hex
    obtain ⟨pre, old, suf, h1, h2, h3, h4⟩ :=
      set_findIdx_decomp (ensureShape now1 freshId1 s) st.sessions hex
    have hlt : List.findIdx
        (fun r => r.id == (ensureShape now1 freshId1 s).id) st.sessions
        < st.sessions.length := by
      rw [List.findIdx_lt_length]
      obtain ⟨r, hr, hrid⟩ := hex
      exact ⟨r, hr, by simpa using hrid⟩
    exact ⟨pre, old, suf, h1, h2, h3, by simp [upsertSession, hlt, h4]⟩
  · intro hs
    have hid : (ensureShape now1 freshId1 s).id = s.id :=
      ensureShape_id_of_ne now1 freshId1 s hs
    have hidem : ensureShape now2 freshId2 (ensureShape now1 freshId1 s)
        = ensureShape now1 freshId1 s :=
      ensureShape_idem now1 freshId1 now2 freshId2 s hnow hfresh
    by_cases hex : ∃ r ∈ st.sessions, r.id = (ensureShape now1 freshId1 s).id
    · obtain ⟨pre, old, suf, h1, h2, h3, h4⟩ :=
        set_findIdx_decomp (ensureShape now1 freshId1 s) st.sessions hex
      have hlt : List.findIdx
          (fun r => r.id == (ensureShape now1 freshId1 s).id) st.sessions
          < st.sessions.length := by
        rw [List.findIdx_lt_length]
        obtain ⟨r, hr, hrid⟩ := hex
        exact ⟨r, hr, by simpa using hrid⟩
      have hfind : (pre ++ ensureShape now1 freshId1 s :: suf).find?
          (fun r => r.id == s.id) = some (ensureShape now1 freshId1 s) := by
        refine find?_after_prefix _ pre suf _ ?_ (by simp [hid])
        intro r hr
        have := h2 r hr
        rw [hid] at this
        simpa using this
      simp [getById, upsertSession, hlt, h4, hfind, hidem]
    · have hlt : ¬ List.findIdx
          (fun r => r.id == (ensureShape now1 freshId1 s).id) st.sessions
          < st.sessions.length := by
        rw [List.findIdx_lt_length]
        push_neg
        intro r hr
        simp only [ne_eq, beq_iff_eq]
        intro hrid
        exact hex ⟨r, hr, hrid⟩
      simp only [getById, upsertSession]
      rw [if_neg hlt]
      have hp : ((ensureShape now1 freshId1 s).id == s.id) = true := by
        simp [hid]
      simp [List.find?_cons, hp, hidem]

/-- Witness for C3 (amended): a fresh record with id `a` in an empty store. -/
theorem c3_witness :
    getById "2024-01-02T00:00:00.000Z" "sess_2"
        (upsertSession "2024-01-01T00:00:00.000Z" "sess_1"
          { sessions := [], activeId := "" }
          { id := "a", title := "", createdAt := "", updatedAt := "",
            messages := none }).fst "a"
      = some (ensureShape "2024-01-01T00:00:00.000Z" "sess_1"
          { id := "a", title := "", createdAt := "", updatedAt := "",
            messages := none }) :=
  (c3_upsert_then_getById "2024-01-01T00:00:00.000Z" "sess_1"
    "2024-01-02T00:00:00.000Z" "sess_2" { sessions := [], activeId := "" }
    { id := "a", title := "", createdAt := "", updatedAt := "",
      messages := none } (by decide) (by decide)).2.2 (by decide)

/-! ## C9: clamping of the generation parameters -/

/-- C9. For every numeric settings input (absent fields included), the
request payload's `temperature` lies in `[0, 1]` and its `maxOutputTokens`
lies in `[1, 2048]`. -/
theorem c9_generation_params_clamped (settings : Settings)
    (memoryMessages : List MemEntry) :
    0 ≤ (buildPayload settings memoryMessages).generationConfig.temperature ∧
    (buildPayload settings memoryMessages).generationConfig.temperature ≤ 1 ∧
    1 ≤ (buildPayload settings
          memoryMessages).generationConfig.maxOutputTokens ∧
    (buildPayload settings memoryMessages).generationConfig.maxOutputTokens
      ≤ 2048 := by
  refine ⟨le_max_left _ _, max_le (by norm_num) (min_le_left _ _),
    le_max_left _ _, max_le (by norm_num) (min_le_left _ _)⟩

/-! ## C8: upstream error classification -/

/-- C8. For every response with a non-success status (and a configured
credential), `generate` fails with the response's status code and either
the structured `error.message` from the body (when present and non-empty)
or the generic "request failed" message naming the status. -/
theorem c8_upstream_error (apiKey : String) (settings : Settings)
    (memoryMessages : List MemEntry) (status : Nat) (body : BodyParse)
    (elapsedMs : Nat) (hkey : apiKey ≠ "")
    (hstatus : ¬ (200 ≤ status ∧ status ≤ 299)) :
    ∃ msg, generate apiKey settings memoryMessages
        (FetchOutcome.response status body) elapsedMs
        = GenResult.failure status msg ∧
      (∀ m parts, body = BodyParse.ok (some m) parts → m ≠ "" → msg = m) ∧
      ((∀ m parts, body = BodyParse.ok (some m) parts → m = "") →
        msg = "Gemini request failed (HTTP " ++ toString status ++ ").") := by
  cases body with
  | unparseable =>
      refine ⟨"Gemini request failed (HTTP " ++ toString status ++ ").",
        ?_, ?_, fun _ => rfl⟩
      · simp [generate, hkey, hstatus]
      · intro m parts h
        cases h
  | ok em parts =>
      cases em with
      | none =>
          refine ⟨"Gemini request failed (HTTP " ++ toString status ++ ").",
            ?_, ?_, fun _ => rfl⟩
          · simp [generate, hkey, hstatus]
          · intro m parts' h
            cases h
      | some m =>
          by_cases hm : m = ""
          · refine ⟨"Gemini request failed (HTTP " ++ toString status
              ++ ").", ?_, ?_, fun _ => rfl⟩
            · simp [generate, hkey, hstatus, hm]
            · intro m' parts' h hm'
              cases h
              exact absurd hm hm'
          · refine ⟨m, ?_, ?_, ?_⟩
            · simp [generate, hkey, hstatus, hm]
            · intro m' parts' h _
              cases h
              rfl
            · intro hall
              exact absurd (hall m parts rfl) hm

/-- Witness for C8: the spec's 403 `{"error":{"message":"bad key"}}`
instance yields `UpstreamError{status: 403, message: "bad key"}`. -/
theorem c8_witness :
    generate "key" { temperature := none, maxTokens := none } []
        (FetchOutcome.response 403 (BodyParse.ok (some "bad key") none)) 5
      = GenResult.failure 403 "bad key" := by
  obtain ⟨msg, h1, h2, _⟩ := c8_upstream_error "key"
    { temperature := none, maxTokens := none } [] 403
    (BodyParse.ok (some "bad key") none) 5 (by decide) (by omega)
  rw [h2 "bad key" none rfl (by decide)] at h1
  exact h1

/-! ## C5: the list-accumulation state machine -/

/-- Flushing twice is the same as flushing once. -/
theorem flushScan_idem (st : ScanState) :
    flushScan (flushScan st) = flushScan st := by
  rcases st with ⟨out, mode, buf⟩
  cases mode with
  | none => simp [flushScan]
  | some m =>
      by_cases hb : buf = [] <;>
        simp [flushScan, hb]

/-- C5. The prose scan handles list buffers as specified: an ordered-item
line arriving while an unordered buffer is open first emits that buffer as
a finished unordered list and starts a fresh ordered buffer (and
symmetrically with the kinds swapped), so list elements of mixed kind are
never merged; a blank line performs exactly the flush and emits nothing
else — in particular, on an open buffer it emits that buffer as one
finished list element of its kind and emits no paragraph, so a
mid-segment blank line splits a list; and at the end of the segment a
still-open buffer is emitted as one finished list element. A trailing
blank line is therefore unobservable in the emitted blocks. -/
theorem c5_list_scan (st : ScanState) (line : List Char) (c : List Char)
    (lines : List (List Char)) :
    (classifyLine line = LineKind.olItem c → st.mode = some LMode.ul →
      st.buf ≠ [] →
      scanStep st line
        = { out := st.out ++ [Block.ul st.buf], mode := some LMode.ol,
            buf := [c] }) ∧
    (classifyLine line = LineKind.ulItem c → st.mode = some LMode.ol →
      st.buf ≠ [] →
      scanStep st line
        = { out := st.out ++ [Block.ol st.buf], mode := some LMode.ul,
            buf := [c] }) ∧
    (classifyLine line = LineKind.blank →
      scanStep st line = flushScan st ∧
      (st.mode = some LMode.ul → st.buf ≠ [] →
        scanStep st line
          = { out := st.out ++ [Block.ul st.buf], mode := none,
              buf := [] }) ∧
      (st.mode = some LMode.ol → st.buf ≠ [] →
        scanStep st line
          = { out := st.out ++ [Block.ol st.buf], mode := none,
              buf := [] }) ∧
      ∀ ls : List (List Char),
        scanLines (ls ++ [line]) = scanLines ls) ∧
    ((lines.foldl scanStep { out := [], mode := none, buf := [] }).mode
        = some LMode.ul →
      (lines.foldl scanStep { out := [], mode := none, buf := [] }).buf
        ≠ [] →
      scanLines lines
        = (lines.foldl scanStep { out := [], mode := none, buf := [] }).out
          ++ [Block.ul (lines.foldl scanStep
              { out := [], mode := none, buf := [] }).buf]) ∧
    ((lines.foldl scanStep { out := [], mode := none, buf := [] }).mode
        = some LMode.ol →
      (lines.foldl scanStep { out := [], mode := none, buf := [] }).buf
        ≠ [] →
      scanLines lines
        = (lines.foldl scanStep { out := [], mode := none, buf := [] }).out
          ++ [Block.ol (lines.foldl scanStep
              { out := [], mode := none, buf := [] }).buf]) := by
  refine ⟨?_, ?_, ?_, ?_, ?_⟩
  · intro hcl hmode hbuf
    simp only [scanStep, hcl, hmode]
    simp [flushScan, hmode, hbuf]
  · intro hcl hmode hbuf
    simp only [scanStep, hcl, hmode]
    simp [flushScan, hmode, hbuf]
  · intro hcl
    have hstep : scanStep st line = flushScan st := by
      simp only [scanStep, hcl]
    refine ⟨hstep, ?_, ?_, ?_⟩
    · intro hmode hbuf
      rw [hstep]
      simp [flushScan, hmode, hbuf]
    · intro hmode hbuf
      rw [hstep]
      simp [flushScan, hmode, hbuf]
    · intro ls
      simp only [scanLines, List.foldl_append, List.foldl_cons,
        List.foldl_nil]
      rw [show scanStep (List.foldl scanStep
          { out := [], mode := none, buf := [] } ls) line
        = flushScan (List.foldl scanStep
          { out := [], mode := none, buf := [] } ls) by
          simp only [scanStep, hcl]]
      rw [flushScan_idem]
  · intro hmode hbuf
    simp only [scanLines]
    simp [flushScan, hmode, hbuf]
  · intro hmode hbuf
    simp only [scanLines]
    simp [flushScan, hmode, hbuf]

/-- Witness for C5: an ordered item arriving on an open unordered buffer
flushes it; a blank line on an open unordered buffer emits exactly that
list and nothing else; and on the segment `- a` / blank / `- b` the
end-of-segment flush emits the second list, so the blank line observably
splits the two unordered lists. -/
theorem c5_witness :
    scanStep { out := [], mode := some LMode.ul, buf := ["a".toList] }
        "1. b".toList
      = { out := [Block.ul ["a".toList]], mode := some LMode.ol,
          buf := ["b".toList] } ∧
    scanStep { out := [], mode := some LMode.ul, buf := ["a".toList] }
        "".toList
      = { out := [Block.ul ["a".toList]], mode := none, buf := [] } ∧
    scanLines ["- a".toList, "".toList, "- b".toList]
      = (["- a".toList, "".toList, "- b".toList].foldl scanStep
          { out := [], mode := none, buf := [] }).out
        ++ [Block.ul (["- a".toList, "".toList, "- b".toList].foldl scanStep
            { out := [], mode := none, buf := [] }).buf] ∧
    scanLines ["- a".toList, "".toList, "- b".toList]
      = [Block.ul ["a".toList], Block.ul ["b".toList]] :=
  ⟨(c5_list_scan { out := [], mode := some LMode.ul, buf := ["a".toList] }
      "1. b".toList "b".toList []).1 (by decide) (by decide) (by decide),
   (((c5_list_scan { out := [], mode := some LMode.ul, buf := ["a".toList] }
      "".toList [] []).2.2.1 (by decide)).2.1 (by decide) (by decide)),
   ((c5_list_scan { out := [], mode := none, buf := [] } "".toList []
      ["- a".toList, "".toList, "- b".toList]).2.2.2.1
     (by decide) (by decide)),
   by decide⟩

/-! ## C6: inline code spans -/

/-- `takeWhile` passes over a block that satisfies the predicate. -/
theorem takeWhile_append_of_all {α : Type} (p : α → Bool) (l l' : List α)
    (h : ∀ a ∈ l, p a = true) :
    (l ++ l').takeWhile p = l ++ l'.takeWhile p := by
  induction l with
  | nil => simp
  | cons a t ih =>
      simp only [List.cons_append, List.takeWhile_cons, h a (by simp)]
      rw [ih (fun x hx => h x (by simp [hx]))]
      simp

/-- `dropWhile` passes over a block that satisfies the predicate. -/
theorem dropWhile_append_of_all {α : Type} (p : α → Bool) (l l' : List α)
    (h : ∀ a ∈ l, p a = true) :
    (l ++ l').dropWhile p = l'.dropWhile p := by
  induction l with
  | nil => simp
  | cons a t ih =>
      simp only [List.cons_append, List.dropWhile_cons, h a (by simp)]
      simp only [if_true]
      exact ih (fun x hx => h x (by simp [hx]))

/-- No escape-map output contains a raw `<`. -/
theorem escChar_no_lt (c : Char) : ∀ ch ∈ escChar c, ch ≠ '<' := by
  intro ch hch
  unfold escChar at hch
  split_ifs at hch with h1 h2 h3 h4 h5
  · exact (by decide : ∀ x ∈ "&amp;".toList, x ≠ '<') ch hch
  · exact (by decide : ∀ x ∈ "&lt;".toList, x ≠ '<') ch hch
  · exact (by decide : ∀ x ∈ "&gt;".toList, x ≠ '<') ch hch
  · exact (by decide : ∀ x ∈ "&quot;".toList, x ≠ '<') ch hch
  · exact (by decide : ∀ x ∈ "&#39;".toList, x ≠ '<') ch hch
  · simp at hch
    subst hch
    exact h2

/-- Escaped text contains no raw `<`. -/
theorem escapeHtmlL_no_lt (cs : List Char) :
    ∀ ch ∈ escapeHtmlL cs, ch ≠ '<' := by
  intro ch hch
  unfold escapeHtmlL at hch
  rw [List.mem_join] at hch
  obtain ⟨l, hl, hch⟩ := hch
  rw [List.mem_map] at hl
  obtain ⟨c, -, rfl⟩ := hl
  exact escChar_no_lt c ch hch

/-- C6 counterexample. The bold pass runs over the whole line before the
code pass, so `**x**` inside backticks is converted to strong tags first;
the code pass then escapes them, and the emitted code element carries the
escaped strong markup instead of the re-escaped original `**x**`: the
content between the backticks *is* bold-processed. -/
theorem c6_counterexample :
    formatInline "`**x**`" = "<code>&lt;strong&gt;x&lt;/strong&gt;</code>" ∧
    formatInline "`**x**`"
      ≠ String.mk ("<code>".toList ++ escapeHtmlL "**x**".toList
          ++ "</code>".toList) := by
  have h1 : formatInline "`**x**`"
      = "<code>&lt;strong&gt;x&lt;/strong&gt;</code>" := by
    simp only [formatInline, formatInlineL]
    simp +decide [escapeHtmlL, escChar, boldRepl, boldClose, boldCloseGo,
      codeRepl, linkRepl, linkCloseGo, urlMatch]
  refine ⟨h1, ?_⟩
  rw [h1]
  decide

/-- C6 (amended). The code pass emits a backtick span with non-empty
backtick-free content as an inline code element whose content is escaped
again, independently, by the replacement callback, and that content
contains no raw `<` — so the code element itself contains no active
markup. However, the bold pass runs over the whole line *before* the code
pass, so `**...**` sequences between backticks have already been rewritten
to strong tags by the time the code pass escapes the span. -/
theorem c6_code_span (content rest : List Char) (hne : content ≠ [])
    (hnb : ∀ ch ∈ content, ch ≠ '`') :
    codeRepl ('`' :: (content ++ '`' :: rest))
      = "<code>".toList ++ escapeHtmlL content ++ "</code>".toList
        ++ codeRepl rest ∧
    ∀ ch ∈ escapeHtmlL content, ch ≠ '<' := by
  have hall : ∀ a ∈ content, (a != '`') = true := by
    intro a ha
    simpa using hnb a ha
  have htake : (content ++ '`' :: rest).takeWhile (fun c => c != '`')
      = content := by
    rw [takeWhile_append_of_all _ _ _ hall]
    simp [List.takeWhile_cons]
  have hdrop : (content ++ '`' :: rest).dropWhile (fun c => c != '`')
      = '`' :: rest := by
    rw [dropWhile_append_of_all _ _ _ hall]
    simp [List.dropWhile_cons]
  refine ⟨?_, escapeHtmlL_no_lt content⟩
  rw [codeRepl]
  rw [dif_pos (by rw [htake, hdrop]; exact ⟨hne, by simp⟩)]
  rw [htake, hdrop]
  simp

/-- Witness for C6 (amended) at the span `` `x` ``. -/
theorem c6_witness :
    codeRepl ('`' :: ("x".toList ++ '`' :: []))
      = "<code>".toList ++ escapeHtmlL "x".toList ++ "</code>".toList
        ++ codeRepl [] ∧
    ∀ ch ∈ escapeHtmlL "x".toList, ch ≠ '<' :=
  c6_code_span "x".toList [] (by decide) (by decide)

/-! ## C7: link conversion -/

/-- Dropping the head preserves absence of `http`. -/
theorem containsHttp_cons_false {c : Char} {rest : List Char}
    (h : containsHttp (c :: rest) = false) : containsHttp rest = false := by
  simp [containsHttp] at h
  exact h.2

/-- A `http://` prefix is an occurrence of `http`. -/
theorem containsHttp_of_take7 (cs : List Char)
    (h : cs.take 7 = "http://".toList) : containsHttp cs = true := by
  cases cs with
  | nil => exact absurd h (by decide)
  | cons c1 r1 =>
      rw [List.take_succ_cons,
        show "http://".toList = 'h' :: "ttp://".toList from by decide] at h
      injection h with h1 h2
      simp only [containsHttp, Bool.or_eq_true, decide_eq_true_iff]
      left
      refine ⟨h1, ?_⟩
      have h3 := congrArg (List.take 3) h2
      rw [List.take_take] at h3
      rw [show (List.take 3 "ttp://".toList) = "ttp".toList from by decide] at h3
      simpa using h3

/-- A `https://` prefix is an occurrence of `http`. -/
theorem containsHttp_of_take8 (cs : List Char)
    (h : cs.take 8 = "https://".toList) : containsHttp cs = true := by
  cases cs with
  | nil => exact absurd h (by decide)
  | cons c1 r1 =>
      rw [List.take_succ_cons,
        show "https://".toList = 'h' :: "ttps://".toList from by decide] at h
      injection h with h1 h2
      simp only [containsHttp, Bool.or_eq_true, decide_eq_true_iff]
      left
      refine ⟨h1, ?_⟩
      have h3 := congrArg (List.take 3) h2
      rw [List.take_take] at h3
      rw [show (List.take 3 "ttps://".toList) = "ttp".toList from by decide] at h3
      simpa using h3

/-- Without an `http` occurrence the URL alternative cannot match. -/
theorem urlMatch_none_of_noHttp (cs : List Char)
    (h : containsHttp cs = false) : urlMatch cs = none := by
  simp only [urlMatch]
  by_cases h7 : cs.take 7 = "http://".toList
  · exact absurd (containsHttp_of_take7 cs h7) (by simp [h])
  · by_cases h8 : cs.take 8 = "https://".toList
    · exact absurd (containsHttp_of_take8 cs h8) (by simp [h])
    · rw [if_neg h7, if_neg h8]

/-- Without an `http` occurrence the lazy label scan finds no close. -/
theorem linkCloseGo_none_of_noHttp (acc cs : List Char)
    (h : containsHttp cs = false) : linkCloseGo acc cs = none := by
  induction cs generalizing acc with
  | nil => simp [linkCloseGo]
  | cons c rest ih =>
      have hrest : containsHttp rest = false := containsHttp_cons_false h
      have htail : containsHttp rest.tail = false := by
        cases rest with
        | nil => simp [containsHttp]
        | cons a t => exact containsHttp_cons_false hrest
      rw [linkCloseGo]
      by_cases h1 : c = '\n' ∨ c = '\r'
      · rw [if_pos h1]
      · rw [if_neg h1]
        by_cases h2 : c = ']' ∧ rest.head? = some '(' ∧ acc ≠ []
        · rw [if_pos h2]
          rw [urlMatch_none_of_noHttp rest.tail htail]
          exact ih (c :: acc) hrest
        · rw [if_neg h2]
          exact ih (c :: acc) hrest

/-- The lazy label scan walks through label characters (no newline, no
closing bracket), accumulating them, until the `](` followed by a
matching URL tail. -/
theorem linkCloseGo_through_label (label : List Char) (acc rest2 u r : List Char)
    (hlab : ∀ ch ∈ label, ch ≠ '\n' ∧ ch ≠ '\r' ∧ ch ≠ ']')
    (hne : label ≠ [] ∨ acc ≠ [])
    (hurl : urlMatch rest2 = some (u, r)) :
    linkCloseGo acc (label ++ ']' :: '(' :: rest2)
      = some ((label.reverse ++ acc).reverse, u, r) := by
  induction label generalizing acc with
  | nil =>
      have hacc : acc ≠ [] := by
        rcases hne with hl | ha
        · exact absurd rfl hl
        · exact ha
      rw [List.nil_append, linkCloseGo]
      rw [if_neg (by decide)]
      rw [if_pos ⟨rfl, by simp, hacc⟩]
      simp [hurl]
  | cons c lab ih =>
      obtain ⟨hcn, hcr, hcb⟩ := hlab c (by simp)
      rw [List.cons_append, linkCloseGo]
      rw [if_neg (by simp [hcn, hcr])]
      rw [if_neg (by simp [hcb])]
      rw [ih (c :: acc) (fun ch hch => hlab ch (by simp [hch])) (Or.inr (by simp))]
      simp

/-- The URL alternative accepts `http://` plus a non-empty run of
characters that are neither whitespace nor `)`, up to the closing `)`. -/
theorem urlMatch_http (run rest : List Char) (hne : run ≠ [])
    (hrun : ∀ ch ∈ run, (!ch.isWhitespace && ch != ')') = true) :
    urlMatch ("http://".toList ++ (run ++ ')' :: rest))
      = some ("http://".toList ++ run, rest) := by
  have h7 : ("http://".toList ++ (run ++ ')' :: rest)).take 7
      = "http://".toList := List.take_left' (by decide)
  have hdrop7 : ("http://".toList ++ (run ++ ')' :: rest)).drop 7
      = run ++ ')' :: rest := List.drop_left' (by decide)
  have htw : (run ++ ')' :: rest).takeWhile
      (fun c => !c.isWhitespace && c != ')') = run := by
    rw [takeWhile_append_of_all _ _ _ hrun]
    simp [List.takeWhile_cons]
  have hdr : (run ++ ')' :: rest).drop run.length = ')' :: rest :=
    List.drop_left _ _
  simp only [urlMatch, h7, if_true, hdrop7, htw, hdr]
  simp [hne]

/-- A `[` whose tail has a lazy close is replaced by the anchor. -/
theorem linkRepl_cons_some (rest0 label u r : List Char)
    (h : linkCloseGo [] rest0 = some (label, u, r)) :
    linkRepl ('[' :: rest0)
      = "<a href=\"".toList ++ u
        ++ "\" target=\"_blank\" rel=\"noopener noreferrer\">".toList
        ++ label ++ "</a>".toList ++ linkRepl r := by
  rw [linkRepl]
  rw [dif_pos (by rw [h]; simp)]
  have hget : (linkCloseGo [] rest0).get (by rw [h]; simp) = (label, u, r) := by
    simp [h]
  rw [hget]

/-- C7 counterexample. Bold markdown inside a link label *is* processed:
the bold pass rewrites `**a**` before the link pass runs, so the anchor
text carries an active strong element rather than the escaped literal
label — the label is not taken verbatim after escaping only. -/
theorem c7_counterexample :
    formatInline "[**a**](http://b)"
      = String.mk ("<a href=\"http://b\" target=\"_blank\" rel=\"noopener noreferrer\">".toList
          ++ "<strong>a</strong>".toList ++ "</a>".toList) ∧
    formatInline "[**a**](http://b)"
      ≠ String.mk ("<a href=\"http://b\" target=\"_blank\" rel=\"noopener noreferrer\">".toList
          ++ escapeHtmlL "**a**".toList ++ "</a>".toList) := by
  have h1 : formatInline "[**a**](http://b)"
      = String.mk ("<a href=\"http://b\" target=\"_blank\" rel=\"noopener noreferrer\">".toList
          ++ "<strong>a</strong>".toList ++ "</a>".toList) := by
    simp only [formatInline, formatInlineL]
    simp +decide [escapeHtmlL, escChar, boldRepl, boldClose, boldCloseGo,
      codeRepl, linkRepl, linkCloseGo, urlMatch]
  refine ⟨h1, ?_⟩
  rw [h1]
  decide

/-- C7 (amended). Only `http://`/`https://` URLs are linked: text without
the character sequence `http` passes the link replacement unchanged (so a
URL with any other scheme is left as literal, already-escaped text); and
the link pass itself copies the label into the anchor text unchanged.
Since bold and inline-code run *before* the link pass, markdown inside a
label reaches the anchor already converted to markup, not verbatim. -/
theorem c7_links (cs label run rest : List Char) :
    (containsHttp cs = false → linkRepl cs = cs) ∧
    (label ≠ [] → (∀ ch ∈ label, ch ≠ '\n' ∧ ch ≠ '\r' ∧ ch ≠ ']') → run ≠ [] →
      (∀ ch ∈ run, (!ch.isWhitespace && ch != ')') = true) →
      linkRepl ('[' :: (label ++ ']' :: '('
          :: ("http://".toList ++ (run ++ ')' :: rest))))
        = "<a href=\"".toList ++ ("http://".toList ++ run)
          ++ "\" target=\"_blank\" rel=\"noopener noreferrer\">".toList
          ++ label ++ "</a>".toList ++ linkRepl rest) := by
  constructor
  · intro h
    induction cs using linkRepl.induct with
    | case1 rest' hs =>
        have : linkCloseGo [] rest' = none :=
          linkCloseGo_none_of_noHttp [] rest' (containsHttp_cons_false h)
        rw [this] at hs
        exact absurd hs (by simp)
    | case2 rest' hs ih =>
        rw [linkRepl, dif_neg hs]
        rw [ih (containsHttp_cons_false h)]
    | case3 c rest' hne ih =>
        rw [linkRepl, ih (containsHttp_cons_false h)]
        exact hne
    | case4 => simp [linkRepl]
  · intro hlne hlab hrne hrun
    have hclose : linkCloseGo []
        (label ++ ']' :: '(' :: ("http://".toList ++ (run ++ ')' :: rest)))
        = some (label, "http://".toList ++ run, rest) := by
      rw [linkCloseGo_through_label label []
        ("http://".toList ++ (run ++ ')' :: rest)) _ _ hlab (Or.inl hlne)
        (urlMatch_http run rest hrne hrun)]
      simp
    exact linkRepl_cons_some _ _ _ _ hclose

/-- Witness for C7 (amended): an `ftp://` link is left unchanged, and a
well-formed `http://` link is converted with the label copied verbatim. -/
theorem c7_witness :
    linkRepl "[x](ftp://y)".toList = "[x](ftp://y)".toList ∧
    linkRepl ('[' :: ("lab".toList ++ ']' :: '('
        :: ("http://".toList ++ ("u".toList ++ ')' :: []))))
      = "<a href=\"".toList ++ ("http://".toList ++ "u".toList)
        ++ "\" target=\"_blank\" rel=\"noopener noreferrer\">".toList
        ++ "lab".toList ++ "</a>".toList ++ linkRepl [] :=
  ⟨(c7_links "[x](ftp://y)".toList "lab".toList "u".toList []).1 (by decide),
   (c7_links "[x](ftp://y)".toList "lab".toList "u".toList []).2
     (by decide) (by decide) (by decide) (by decide)⟩

end Genesis
